import Mathlib

set_option autoImplicit false

/-!
Verification development for `repomix_wx.py`, a GUI front-end that curates a
file set and synthesizes a command line for an external packaging tool.  The
pure logic of the program (path normalization, ignore-pattern matching, file
discovery filtering, visible-set computation, command synthesis, shell
quoting, default-ignore auto-add, removal of ignore patterns, and state
persistence) is embedded shallowly below; widget plumbing, the subprocess
launch and the real file system stay outside the model (the file system is
passed in as explicit parameters such as the discovered file list and
existence predicates).
-/

/-! ## Basic string helpers (Python string primitives on ASCII text) -/

/-- Whitespace as removed by Python `str.strip()` (the ASCII whitespace
characters space, tab, newline, carriage return, vertical tab, form feed). -/
def isPySpace (c : Char) : Bool :=
  c = ' ' || c = '\t' || c = '\n' || c = '\r' || c = '\x0b' || c = '\x0c'

/-- Python `s.strip()`: remove leading and trailing whitespace. -/
def pyStrip (s : String) : String :=
  ⟨((s.data.dropWhile isPySpace).reverse.dropWhile isPySpace).reverse⟩

/-- Python `s.replace("\\", "/")`: fold every backslash to a forward slash. -/
def replaceBS (s : String) : String :=
  ⟨s.data.map (fun c => if c = '\\' then '/' else c)⟩

/-- ASCII case folding of one character, modelling Python `str.lower` on the
ASCII subset relevant to paths. -/
def asciiLower (c : Char) : Char :=
  if 'A' ≤ c && c ≤ 'Z' then Char.ofNat (c.toNat + 32) else c

/-- Python `s.lower()` on ASCII text. -/
def pyLower (s : String) : String :=
  ⟨s.data.map asciiLower⟩

/-- Boolean test that the first list is a leading segment of the second,
modelling Python `s.startswith(t)` over the characters of the strings. -/
def startsWithL : List Char → List Char → Bool
  | [], _ => true
  | _ :: _, [] => false
  | a :: as, b :: bs => a == b && startsWithL as bs

/-- Boolean substring test, modelling Python `needle in hay`. -/
def substrL (needle : List Char) : List Char → Bool
  | [] => needle.isEmpty
  | l@(_ :: rest) => startsWithL needle l || substrL needle rest

/-- Boolean test that the first list is a trailing segment of the second,
modelling Python `s.endswith(t)`. -/
def endsWithL (suf l : List Char) : Bool :=
  startsWithL suf.reverse l.reverse

/-- Code-point lexicographic order on character lists, the order Python uses
to compare strings. -/
def strLeB : List Char → List Char → Bool
  | [], _ => true
  | _ :: _, [] => false
  | a :: as, b :: bs => a < b || (a == b && strLeB as bs)

/-- Insert a string into a list sorted by `strLeB`, keeping stability. -/
def insertSorted (x : String) : List String → List String
  | [] => [x]
  | y :: ys => if strLeB x.data y.data then x :: y :: ys else y :: insertSorted x ys

/-- Sort a list of strings by code points, modelling Python `sorted` on
strings (and on `Path` values, which compare by their string form). -/
def sortStrs (l : List String) : List String :=
  l.foldr insertSorted []

/-- Python `s.removeprefix("./")`: one leading "./" is removed if present. -/
def removeDotSlash (s : String) : String :=
  match s.data with
  | '.' :: '/' :: rest => ⟨rest⟩
  | _ => s

/-- Last '/'-separated component of a path string, modelling `Path.name` for
the paths produced by the directory walk. -/
def lastComp (l : List Char) : List Char :=
  l.foldl (fun acc c => if c = '/' then [] else acc ++ [c]) []

/-! ## Shell-glob matching (model of Python `fnmatch.fnmatch` on POSIX,
where `os.path.normcase` is the identity, so matching is case-sensitive) -/

/-- One element of a translated glob pattern: a literal character, `?`, `*`,
or a bracket class holding a negation flag and closed character ranges (a
single character is the range from itself to itself). -/
inductive GlobTok where
  | lit (c : Char)
  | anyChar
  | star
  | cls (neg : Bool) (items : List (Char × Char))
deriving DecidableEq

/-- Character-class membership: inside some range, then negated if asked.
Empty ranges (low above high) accept nothing, matching how
`fnmatch.translate` drops ranges that are invalid in a regular
expression. -/
def classMatch (neg : Bool) (items : List (Char × Char)) (c : Char) : Bool :=
  let hit := items.any (fun it => it.1 ≤ c && c ≤ it.2)
  if neg then !hit else hit

/-- Parse the body of a bracket class into ranges: `a-b` forms a range, any
other character stands for itself; a `-` that has no partner on both sides is
literal.  This reproduces the chunk splitting of `fnmatch.translate`. -/
def parseClassItems : List Char → List (Char × Char)
  | a :: '-' :: b :: rest => (a, b) :: parseClassItems rest
  | a :: rest => (a, a) :: parseClassItems rest
  | [] => []

/-- Split a list at the first ']', returning the part before and after it. -/
def scanClose : List Char → Option (List Char × List Char)
  | [] => none
  | c :: rest =>
    if c = ']' then some ([], rest)
    else
      match scanClose rest with
      | some (pre, post) => some (c :: pre, post)
      | none => none

/-- Number of leading body characters of a bracket class that can never close
it: `fnmatch.translate` skips a leading '!' and then one leading ']'. -/
def classSkip (l : List Char) : Nat :=
  match l with
  | '!' :: ']' :: _ => 2
  | '!' :: _ => 1
  | ']' :: _ => 1
  | _ => 0

/-- Find the body of a bracket class, with the lookahead of
`fnmatch.translate`: a leading '!' and then a leading ']' belong to the body
rather than closing it. -/
def splitClass (l : List Char) : Option (List Char × List Char) :=
  match scanClose (l.drop (classSkip l)) with
  | some (pre, post) => some (l.take (classSkip l) ++ pre, post)
  | none => none

/-- Build the class token from a class body: a leading '!' negates. -/
def mkClass (content : List Char) : GlobTok :=
  match content with
  | '!' :: rest => .cls true (parseClassItems rest)
  | _ => .cls false (parseClassItems content)

/-- Tokenize a glob pattern.  The fuel argument is only a structural bound on
recursion depth; every step consumes at least one character, so fuel equal to
the length of the input is always enough (see `parseGlobF_fuel`). -/
def parseGlobF : Nat → List Char → List GlobTok
  | 0, _ => []
  | _ + 1, [] => []
  | f + 1, c :: rest =>
    if c = '*' then .star :: parseGlobF f rest
    else if c = '?' then .anyChar :: parseGlobF f rest
    else if c = '[' then
      match splitClass rest with
      | some (content, post) => mkClass content :: parseGlobF f post
      | none => .lit '[' :: parseGlobF f rest
    else .lit c :: parseGlobF f rest

/-- Tokenize a glob pattern (an unmatched '[' is a literal, as in
`fnmatch.translate`). -/
def parseGlob (l : List Char) : List GlobTok :=
  parseGlobF l.length l

/-- Backtracking glob matcher over tokens.  `star` may consume any run of
characters, including '/'.  The fuel argument bounds recursion depth; each
step lowers `toks.length + s.length`, so fuel above that sum is always enough
(see `globMatchF_fuel`). -/
def globMatchF : Nat → List GlobTok → List Char → Bool
  | 0, _, _ => false
  | _ + 1, [], [] => true
  | _ + 1, [], _ :: _ => false
  | f + 1, .star :: ps, [] => globMatchF f ps []
  | f + 1, .star :: ps, c :: s =>
    globMatchF f ps (c :: s) || globMatchF f (.star :: ps) s
  | f + 1, .anyChar :: ps, _ :: s => globMatchF f ps s
  | _ + 1, .anyChar :: _, [] => false
  | f + 1, .lit c :: ps, c' :: s => c == c' && globMatchF f ps s
  | _ + 1, .lit _ :: _, [] => false
  | f + 1, .cls n items :: ps, c :: s => classMatch n items c && globMatchF f ps s
  | _ + 1, .cls _ _ :: _, [] => false

/-- Model of Python `fnmatch.fnmatch(name, pat)` on POSIX: translate the
pattern and ask for a full match of the name. -/
def fnmatch (name pat : String) : Bool :=
  let toks := parseGlob pat.data
  globMatchF (toks.length + name.data.length + 1) toks name.data

/-! ## Source embedding: constants and pattern matching
(`repomix_wx.py`, module level and `RepomixFrame` helpers) -/

/-- The module constant `IGNORED_DIRS_DEFAULT`, a set of names; listed here
in the order of the source literal (the program only ever uses membership and
a sorted enumeration). -/
def IGNORED_DIRS_DEFAULT : List String :=
  [".git", ".hg", ".svn", ".idea", ".vscode", "node_modules", "dist",
   "build", "__pycache__", ".venv", ".gitignore", "uv.lock"]

/-- Embedding of `_normalize_glob`: strip whitespace, fold backslashes to
slashes, drop one leading "./", and drop one trailing '/' when the length
exceeds one. -/
def _normalize_glob (pat : String) : String :=
  let s := removeDotSlash (replaceBS (pyStrip pat))
  if s.length > 1 && s.data.getLast? == some '/' then ⟨s.data.dropLast⟩ else s

/-- One iteration of the loop body of `_matches_patterns` for a single raw
pattern against the already slash-folded path `ps`: empty normalized patterns
are skipped, then exact equality, shell-glob equality, and the directory
prefix rule are tried in order. -/
def matchesOne (ps : String) (raw : String) : Bool :=
  let pat := _normalize_glob raw
  if pat = "" then false
  else if ps = pat then true
  else if fnmatch ps pat then true
  else if !(pat.data.contains '/') && startsWithL (pat.data ++ ['/']) ps.data then true
  else false

/-- Embedding of `_matches_patterns`: fold the path's backslashes, then test
the patterns in order with short-circuit (the source's for loop with early
return is the `List.any` combinator). -/
def _matches_patterns (path_str : String) (patterns : List String) : Bool :=
  let ps := replaceBS path_str
  patterns.any (fun raw => matchesOne ps raw)

/-! ## Source embedding: file discovery -/

/-- Binary-like suffixes dropped by `discover_files`, in source order. -/
def BINARY_SUFFIXES : List String :=
  [".png", ".jpg", ".jpeg", ".gif", ".webp", ".pdf", ".zip", ".7z",
   ".tar", ".gz", ".bz2"]

/-- Test of `p.name.endswith((...))` inside `discover_files`: the file name
(the last path component) against the binary suffix tuple. -/
def isBinaryName (name : String) : Bool :=
  BINARY_SUFFIXES.any (fun e => endsWithL e.data name.data)

/-- Embedding of `discover_files`.  The file-system walk itself is outside
the model: `walk` is the list of root-relative path strings the walk would
enumerate (on POSIX `relative_to` never fails for entries produced by
`os.walk` under the root, so the `except ValueError` branch is dead).  The
function drops files whose name ends with a binary suffix and sorts the
survivors. -/
def discover_files (walk : List String) : List String :=
  sortStrs (walk.filter (fun p => !isBinaryName ⟨lastComp p.data⟩))

/-! ## Source embedding: the visible set (`_reload_files_list`) -/

/-- Embedding of the list-building part of `_reload_files_list`: the visible
files are the discovered files not covered by an ignore pattern and not
exactly excluded, further filtered by the lower-cased stripped filter text
when it is non-empty. -/
def _reload_files_list (allFiles patterns excluded : List String)
    (filterText : String) : List String :=
  let q := pyLower (pyStrip filterText)
  let base := allFiles.filter
    (fun p => !_matches_patterns p patterns && !excluded.contains p)
  if q ≠ "" then base.filter (fun p => substrL q.data (pyLower p).data) else base

/-! ## Source embedding: command synthesis and shell quoting -/

/-- The thirteen boolean option checkboxes, in their fixed declaration
order. -/
structure Flags where
  parsable : Bool := false
  compress : Bool := false
  line_numbers : Bool := false
  no_file_summary : Bool := false
  no_directory_structure : Bool := false
  no_files : Bool := false
  remove_comments : Bool := false
  remove_empty : Bool := true
  truncate_b64 : Bool := false
  include_empty_dirs : Bool := false
  no_git_sort : Bool := false
  include_diffs : Bool := false
  include_logs : Bool := false
deriving DecidableEq

/-- The flag tokens emitted by `_build_command`, matching `add_flag` calls in
order. -/
def flagTokens (fl : Flags) : List String :=
  (if fl.parsable then ["--parsable-style"] else []) ++
  (if fl.compress then ["--compress"] else []) ++
  (if fl.line_numbers then ["--output-show-line-numbers"] else []) ++
  (if fl.no_file_summary then ["--no-file-summary"] else []) ++
  (if fl.no_directory_structure then ["--no-directory-structure"] else []) ++
  (if fl.no_files then ["--no-files"] else []) ++
  (if fl.remove_comments then ["--remove-comments"] else []) ++
  (if fl.remove_empty then ["--remove-empty-lines"] else []) ++
  (if fl.truncate_b64 then ["--truncate-base64"] else []) ++
  (if fl.include_empty_dirs then ["--include-empty-directories"] else []) ++
  (if fl.no_git_sort then ["--no-git-sort-by-changes"] else []) ++
  (if fl.include_diffs then ["--include-diffs"] else []) ++
  (if fl.include_logs then ["--include-logs"] else [])

/-- The configuration the command builder reads: raw widget values plus the
selection-model state. -/
structure ConfigState where
  output_name : String
  style : String
  flags : Flags
  header_text : String
  instruction_path : String
  ignore_patterns : List String
  excluded_files : List String
deriving DecidableEq

/-- Embedding of `_build_command`.  `output_name` and `style` hold the raw
widget values (`style` is one of the choice strings, or "" if the widget had
no selection, which the source defends against with `or "markdown"`);
`excluded_files` models `_excluded_files_set`, so it is sorted before being
joined into `--ignore`. -/
def _build_command (st : ConfigState) : List String :=
  let out_name :=
    pyStrip (if st.output_name = "" then "repomix_output.md" else st.output_name)
  let style := if st.style = "" then "markdown" else st.style
  let ht := pyStrip st.header_text
  let instr := pyStrip st.instruction_path
  let ignore_items :=
    (if st.ignore_patterns ≠ [] then st.ignore_patterns else []) ++
      (if st.excluded_files ≠ [] then sortStrs st.excluded_files else [])
  ["repomix"] ++
    (if out_name ≠ "" then ["-o", out_name] else []) ++
    (if style ≠ "" then ["--style", style] else []) ++
    flagTokens st.flags ++
    (if ht ≠ "" then ["--header-text", ht] else []) ++
    (if instr ≠ "" then ["--instruction-file-path", instr] else []) ++
    (if ignore_items ≠ [] then ["--ignore", String.intercalate "," ignore_items] else [])

/-- The shell metacharacters tested by `_shell_quote` (the source string
" \t\"'*$&()[]{};|<>`"; the quote, brace and backtick characters are spelled
by code point). -/
def SHELL_SPECIALS : List Char :=
  [' ', '\t', '"', Char.ofNat 39, '*', '$', '&', '(', ')', '[', ']',
   Char.ofNat 123, Char.ofNat 125, ';', '|', '<', '>', Char.ofNat 96]

/-- Python `s.replace('"', '\\"')` as used by `_shell_quote`. -/
def escapeQuotes (s : String) : String :=
  ⟨s.data.flatMap (fun c => if c = '"' then ['\\', '"'] else [c])⟩

/-- Embedding of `_shell_quote`: wrap in double quotes (escaping embedded
quotes) when the token is falsy (empty) or contains a metacharacter. -/
def _shell_quote (s : String) : String :=
  if s = "" || SHELL_SPECIALS.any (fun ch => s.data.contains ch) then
    "\"" ++ escapeQuotes s ++ "\""
  else s

/-! ## Source embedding: ignore-pattern removal (`on_remove_ignore`) -/

/-- Python `set.add` on a set modelled as a duplicate-free list: append when
absent. -/
def insertS (l : List String) (x : String) : List String :=
  if l.contains x then l else l ++ [x]

/-- The selection-model state touched by `on_remove_ignore`:
`_ignore_patterns`, `_excluded_files_set` (a set, modelled as a list used
only through membership) and `_ignore_defaults_optout`. -/
structure IgnoreState where
  patterns : List String
  excluded : List String
  optout : List String
deriving DecidableEq

/-- The helper `matches_any` defined inside `on_remove_ignore`: fold the
path's backslashes and ask `_matches_patterns`. -/
def matches_any (p : String) (patterns : List String) : Bool :=
  _matches_patterns (replaceBS p) patterns

/-- Embedding of `on_remove_ignore` for a selection `sel` (the widget returns
indices in ascending order, each a valid position).  The source pops the
selected indices in reversed (descending) order, computes the removed
patterns first, un-excludes files that matched a removed pattern but no
remaining one, and records removed default names in the opt-out set. -/
def on_remove_ignore (st : IgnoreState) (sel : List Nat) : IgnoreState :=
  let removed_patterns := sel.map (fun i => st.patterns.getD i "")
  let patterns' := (sel.reverse).foldl (fun l i => l.eraseIdx i) st.patterns
  let to_unexclude := st.excluded.filter
    (fun p => matches_any p removed_patterns && !matches_any p patterns')
  let excluded' := to_unexclude.foldl (fun l p => l.filter (fun q => q != p)) st.excluded
  let optout' := removed_patterns.foldl
    (fun l rp => if IGNORED_DIRS_DEFAULT.contains rp then insertS l rp else l) st.optout
  ⟨patterns', excluded', optout'⟩

/-- Claim-side description of index removal: keep exactly the elements whose
position is not selected (`k` is the position of the head of `l`). -/
def keepNotSel {α : Type} (sel : List Nat) : Nat → List α → List α
  | _, [] => []
  | k, a :: l =>
    if sel.contains k then keepNotSel sel (k + 1) l else a :: keepNotSel sel (k + 1) l

/-- Boolean strict ascending test on index lists (the shape of a widget
selection). -/
def strictAscB : List Nat → Bool
  | [] => true
  | [_] => true
  | a :: b :: rest => a < b && strictAscB (b :: rest)

/-! ## Source embedding: default-ignore auto-add and rescan -/

/-- Enumeration of `sorted(IGNORED_DIRS_DEFAULT)` used by
`_ensure_default_ignores_exist`. -/
def sortedDefaults : List String :=
  sortStrs IGNORED_DIRS_DEFAULT

/-- Embedding of `_ensure_default_ignores_exist`.  `fsE d` stands for
`(root / d).exists()`.  The source keeps an `existing` set that mirrors the
current pattern list (it is seeded from it and every appended name is added
to both), so the membership test is against the accumulator. -/
def _ensure_default_ignores_exist (fsE : String → Bool) (optout : List String)
    (patterns : List String) : List String :=
  sortedDefaults.foldl
    (fun acc d =>
      if fsE d && !acc.contains d && !optout.contains d then acc ++ [d] else acc)
    patterns

/-- State read and written by `_rescan_and_update`: patterns, exclusions,
opt-outs and the visible list. -/
structure ScanState where
  patterns : List String
  excluded : List String
  optout : List String
  visible : List String
deriving DecidableEq

/-- Embedding of `_rescan_and_update` with a set root.  `allFiles` is what
`discover_files` returns for the unchanged file system and `fsE` the
existence test for default names under the root; the call refreshes the
pattern list through the default auto-add and recomputes the visible list,
leaving exclusions and opt-outs alone. -/
def _rescan_and_update (fsE : String → Bool) (allFiles : List String)
    (filterText : String) (st : ScanState) : ScanState :=
  let patterns' := _ensure_default_ignores_exist fsE st.optout st.patterns
  { st with
    patterns := patterns'
    visible := _reload_files_list allFiles patterns' st.excluded filterText }

/-! ## Source embedding: state persistence -/

/-- The `flags` object of the serialized state; every key may be absent when
a foreign or older file is read back. -/
structure FlagsJson where
  parsable : Option Bool := none
  compress : Option Bool := none
  line_numbers : Option Bool := none
  no_file_summary : Option Bool := none
  no_directory_structure : Option Bool := none
  no_files : Option Bool := none
  remove_comments : Option Bool := none
  remove_empty : Option Bool := none
  truncate_b64 : Option Bool := none
  include_empty_dirs : Option Bool := none
  no_git_sort : Option Bool := none
  include_diffs : Option Bool := none
  include_logs : Option Bool := none
deriving DecidableEq

/-- The serialized `state.json` object: every key may be absent
(`data.get` returns `None`). -/
structure SavedState where
  last_dir : Option String := none
  output_name : Option String := none
  style : Option String := none
  header_text : Option String := none
  instruction_file_path : Option String := none
  flags : Option FlagsJson := none
  ignore_patterns : Option (List String) := none
  ignore_defaults_optout : Option (List String) := none
  excluded_files : Option (List String) := none
deriving DecidableEq

/-- The user-visible configuration the frame holds in widgets and fields.
`last_dir` is the directory-picker path ("" when unset, in which case
`root_path` is `None`); `excluded_files` and `ignore_defaults_optout` model
the corresponding sets as lists used through membership. -/
structure AppState where
  last_dir : String
  output_name : String
  style : String
  header_text : String
  instruction_file_path : String
  flags : Flags
  ignore_patterns : List String
  ignore_defaults_optout : List String
  excluded_files : List String
deriving DecidableEq

/-- The state of a freshly constructed frame, before any restore: the
`__init__` widget defaults, with `remove_empty` pre-checked. -/
def freshState : AppState :=
  { last_dir := ""
    output_name := "repomix_output.md"
    style := "markdown"
    header_text := ""
    instruction_file_path := ""
    flags := {}
    ignore_patterns := []
    ignore_defaults_optout := []
    excluded_files := [] }

/-- Embedding of `_persist_state`: serialize every field (all keys
present).  `excluded_files` is written sorted, `ignore_defaults_optout` in
the set's enumeration order (the list itself in this model). -/
def _persist_state (st : AppState) : SavedState :=
  { last_dir := some st.last_dir
    output_name := some st.output_name
    style := some st.style
    header_text := some st.header_text
    instruction_file_path := some st.instruction_file_path
    flags := some
      { parsable := some st.flags.parsable
        compress := some st.flags.compress
        line_numbers := some st.flags.line_numbers
        no_file_summary := some st.flags.no_file_summary
        no_directory_structure := some st.flags.no_directory_structure
        no_files := some st.flags.no_files
        remove_comments := some st.flags.remove_comments
        remove_empty := some st.flags.remove_empty
        truncate_b64 := some st.flags.truncate_b64
        include_empty_dirs := some st.flags.include_empty_dirs
        no_git_sort := some st.flags.no_git_sort
        include_diffs := some st.flags.include_diffs
        include_logs := some st.flags.include_logs }
    ignore_patterns := some st.ignore_patterns
    ignore_defaults_optout := some st.ignore_defaults_optout
    excluded_files := some (sortStrs st.excluded_files) }

/-- The style strings of the choice widget, in order. -/
def styleChoices : List String :=
  ["markdown", "plain", "xml"]

/-- Model of `wx.Choice.FindString` over a choice list: case-insensitive
comparison (the wx default), first match wins, and a later
`GetStringSelection` returns the canonical choice entry at the found index
rather than the searched string. -/
def findStringCI (choices : List String) (s : String) : Option String :=
  choices.find? (fun c => pyLower c == pyLower s)

/-- Embedding of `_restore_state` applied over the current state `cur`
(at startup the fresh frame).  `fsIsDir d` stands for `Path(d).is_dir()` and
`fsE` for the existence test used by the default auto-add.  Each field
tolerates an absent or falsy value by keeping the current/default one; the
style is looked up among the choices case-insensitively (`FindString`) and
left unchanged when not found.  When a directory is restored (`last_dir`
non-empty and a directory), the source ends by calling `on_refresh`, which
clears the exclusion set and runs the default auto-add over the restored
patterns; with no restorable directory those effects do not happen. -/
def _restore_state (fsIsDir fsE : String → Bool) (data : SavedState)
    (cur : AppState) : AppState :=
  let last_dir :=
    match data.last_dir with
    | some d => if d ≠ "" && fsIsDir d then d else cur.last_dir
    | none => cur.last_dir
  let styleWant :=
    match data.style with
    | some s => if s = "" then "markdown" else s
    | none => "markdown"
  let style :=
    match findStringCI styleChoices styleWant with
    | some c => c
    | none => cur.style
  let output_name :=
    match data.output_name with
    | some v => if v = "" then cur.output_name else v
    | none => cur.output_name
  let header_text := (data.header_text.getD "")
  let instr := data.instruction_file_path.getD ""
  let instruction_file_path :=
    if instr ≠ "" then instr else cur.instruction_file_path
  let fl := data.flags.getD {}
  let flags : Flags :=
    { parsable := fl.parsable.getD false
      compress := fl.compress.getD false
      line_numbers := fl.line_numbers.getD false
      no_file_summary := fl.no_file_summary.getD false
      no_directory_structure := fl.no_directory_structure.getD false
      no_files := fl.no_files.getD false
      remove_comments := fl.remove_comments.getD false
      remove_empty := fl.remove_empty.getD true
      truncate_b64 := fl.truncate_b64.getD false
      include_empty_dirs := fl.include_empty_dirs.getD false
      no_git_sort := fl.no_git_sort.getD false
      include_diffs := fl.include_diffs.getD false
      include_logs := fl.include_logs.getD false }
  let ignore_patterns := data.ignore_patterns.getD []
  let ignore_defaults_optout := data.ignore_defaults_optout.getD []
  let excluded_files := data.excluded_files.getD []
  if last_dir ≠ "" then
    { last_dir := last_dir
      output_name := output_name
      style := style
      header_text := header_text
      instruction_file_path := instruction_file_path
      flags := flags
      ignore_patterns :=
        _ensure_default_ignores_exist fsE ignore_defaults_optout ignore_patterns
      ignore_defaults_optout := ignore_defaults_optout
      excluded_files := [] }
  else
    { last_dir := last_dir
      output_name := output_name
      style := style
      header_text := header_text
      instruction_file_path := instruction_file_path
      flags := flags
      ignore_patterns := ignore_patterns
      ignore_defaults_optout := ignore_defaults_optout
      excluded_files := excluded_files }

/-! ## Claim-side specification definitions (worded from the spec, to be
compared with the source embeddings) -/

/-- Spec wording of one pattern rule (§4.2): exact string equality, or
shell-glob equality, or the pattern has no '/' and the path starts with the
pattern followed by '/'. -/
def globRuleMatch (ps pat : String) : Prop :=
  ps = pat ∨ fnmatch ps pat = true ∨
    (pat.data.contains '/' = false ∧ startsWithL (pat.data ++ ['/']) ps.data = true)

/-- Spec wording of the matcher (§4.2): some pattern of the list, after
normalization and skipping empty ones, satisfies a rule. -/
def claimMatches (ps : String) (patterns : List String) : Prop :=
  ∃ raw ∈ patterns, _normalize_glob raw ≠ "" ∧ globRuleMatch ps (_normalize_glob raw)

/-- Spec wording of command synthesis (§4.5): fixed order, `--style` always
present, and one `--ignore` item list of patterns then sorted exclusions,
omitted when both are empty. -/
def buildCommandSpec (st : ConfigState) : List String :=
  let out_name :=
    pyStrip (if st.output_name = "" then "repomix_output.md" else st.output_name)
  let style := if st.style = "" then "markdown" else st.style
  let ht := pyStrip st.header_text
  let instr := pyStrip st.instruction_path
  let items := st.ignore_patterns ++ sortStrs st.excluded_files
  ["repomix"] ++
    (if out_name ≠ "" then ["-o", out_name] else []) ++
    ["--style", style] ++
    flagTokens st.flags ++
    (if ht ≠ "" then ["--header-text", ht] else []) ++
    (if instr ≠ "" then ["--instruction-file-path", instr] else []) ++
    (if st.ignore_patterns = [] ∧ st.excluded_files = [] then []
     else ["--ignore", String.intercalate "," items])

/-- Spec wording of pattern normalization (§4.1): strip, fold backslashes,
drop one leading "./", and drop exactly one trailing '/' unless the result
would be empty. -/
def normalizeSpecC8 (pat : String) : String :=
  let s := removeDotSlash (replaceBS (pyStrip pat))
  if s.data.getLast? == some '/' && !s.data.dropLast.isEmpty then
    ⟨s.data.dropLast⟩
  else s

/-! ## Fuel adequacy for the glob matcher -/

/-- Any fuel above the combined length of pattern and subject gives the same
answer, so the fixed fuel used by `fnmatch` is as good as unlimited fuel. -/
theorem globMatchF_fuel : ∀ (f g : Nat) (ps : List GlobTok) (s : List Char),
    ps.length + s.length < f → ps.length + s.length < g →
    globMatchF f ps s = globMatchF g ps s := by
  intro f
  induction f with
  | zero => intro g ps s hf; omega
  | succ f ih =>
    intro g ps s hf hg
    cases g with
    | zero => omega
    | succ g =>
      cases ps with
      | nil =>
        cases s with
        | nil => rfl
        | cons c s => rfl
      | cons t ps =>
        cases t with
        | star =>
          cases s with
          | nil =>
            simp only [globMatchF]
            exact ih g ps [] (by simp at hf ⊢; omega) (by simp at hg ⊢; omega)
          | cons c s =>
            simp only [globMatchF]
            rw [ih g ps (c :: s) (by simp at hf ⊢; omega) (by simp at hg ⊢; omega),
              ih g (.star :: ps) s (by simp at hf ⊢; omega) (by simp at hg ⊢; omega)]
        | anyChar =>
          cases s with
          | nil => rfl
          | cons c s =>
            simp only [globMatchF]
            exact ih g ps s (by simp at hf ⊢; omega) (by simp at hg ⊢; omega)
        | lit a =>
          cases s with
          | nil => rfl
          | cons c s =>
            simp only [globMatchF]
            rw [ih g ps s (by simp at hf ⊢; omega) (by simp at hg ⊢; omega)]
        | cls n items =>
          cases s with
          | nil => rfl
          | cons c s =>
            simp only [globMatchF]
            rw [ih g ps s (by simp at hf ⊢; omega) (by simp at hg ⊢; omega)]

/-- Splitting at the first ']' accounts for every character. -/
theorem scanClose_length : ∀ (l pre post : List Char),
    scanClose l = some (pre, post) → l.length = pre.length + post.length + 1 := by
  intro l
  induction l with
  | nil => intro pre post h; simp [scanClose] at h
  | cons c rest ih =>
    intro pre post h
    by_cases hc : c = ']'
    · subst hc
      simp [scanClose] at h
      simp [← h.1, ← h.2]
    · simp only [scanClose, if_neg hc] at h
      cases hsc : scanClose rest with
      | none => rw [hsc] at h; simp at h
      | some pr =>
        rw [hsc] at h
        cases pr with
        | mk pre' post' =>
          simp at h
          have := ih pre' post' hsc
          simp [← h.1, ← h.2, this]
          omega

/-- The remainder after a parsed bracket class is strictly shorter than the
class body it came from. -/
theorem splitClass_post_lt (l content post : List Char)
    (h : splitClass l = some (content, post)) : post.length < l.length := by
  unfold splitClass at h
  cases hsc : scanClose (l.drop (classSkip l)) with
  | none => rw [hsc] at h; simp at h
  | some pr =>
    rw [hsc] at h
    cases pr with
    | mk pre' post' =>
      simp at h
      obtain ⟨h1, h2⟩ := h
      have hlen := scanClose_length _ _ _ hsc
      have hdrop : (l.drop (classSkip l)).length ≤ l.length := by
        simp [List.length_drop]
      subst h2
      omega

/-- Any fuel at least the input length tokenizes a glob identically, so the
fixed fuel used by `parseGlob` is as good as unlimited fuel. -/
theorem parseGlobF_fuel : ∀ (f g : Nat) (l : List Char),
    l.length ≤ f → l.length ≤ g → parseGlobF f l = parseGlobF g l := by
  intro f
  induction f with
  | zero =>
    intro g l hf
    intro hg
    have : l = [] := by
      cases l with
      | nil => rfl
      | cons c rest => simp at hf
    subst this
    cases g <;> rfl
  | succ f ih =>
    intro g l hf hg
    cases g with
    | zero =>
      have : l = [] := by
        cases l with
        | nil => rfl
        | cons c rest => simp at hg
      subst this
      rfl
    | succ g =>
      cases l with
      | nil => rfl
      | cons c rest =>
        simp only [parseGlobF]
        have hrest : rest.length ≤ f := by simp at hf; omega
        have hrestg : rest.length ≤ g := by simp at hg; omega
        by_cases h1 : c = '*'
        · simp [h1, ih g rest hrest hrestg]
        by_cases h2 : c = '?'
        · simp [h1, h2, ih g rest hrest hrestg]
        by_cases h3 : c = '['
        · simp only [if_neg h1, if_neg h2, if_pos h3]
          cases hsp : splitClass rest with
          | none => simp [ih g rest hrest hrestg]
          | some pr =>
            cases pr with
            | mk content post =>
              have hpost := splitClass_post_lt rest content post hsp
              simp [ih g post (by omega) (by omega)]
        · simp [if_neg h1, if_neg h2, if_neg h3, ih g rest hrest hrestg]

/-! ## Helper lemmas -/

/-- Backslash folding fixes every character of a backslash-free list. -/
theorem map_noBS : ∀ (d : List Char), '\\' ∉ d →
    d.map (fun c => if c = '\\' then '/' else c) = d := by
  intro d
  induction d with
  | nil => intro h; rfl
  | cons c cs ih =>
    intro h
    simp only [List.mem_cons, not_or] at h
    have hc : ¬(c = '\\') := fun hh => h.1 hh.symm
    simp [hc, ih h.2]

/-- Folding backslashes is the identity on a string that has none. -/
theorem replaceBS_id (s : String) (h : '\\' ∉ s.data) : replaceBS s = s := by
  cases s with
  | mk d =>
    unfold replaceBS
    congr 1
    exact map_noBS d h

/-- One loop iteration of the matcher agrees with the disjunction of the
three spec rules. -/
theorem matchesOne_iff (ps raw : String) :
    matchesOne ps raw = true ↔
      _normalize_glob raw ≠ "" ∧ globRuleMatch ps (_normalize_glob raw) := by
  simp only [matchesOne, globRuleMatch]
  split_ifs with h1 h2 h3 h4 <;> simp_all

/-- The matcher is the list-level disjunction of per-pattern tests. -/
theorem matches_patterns_any (path_str : String) (patterns : List String) :
    _matches_patterns path_str patterns =
      patterns.any (fun raw => matchesOne (replaceBS path_str) raw) := rfl

/-! ## C1: the matcher is exactly the three-rule first-match search -/

/-- C1.  On a slash-normalized path the matcher answers true exactly when
some pattern of the list, after normalization and skipping empty ones,
matches by exact equality, shell-glob equality, or the directory-prefix rule
(so in particular false on an empty list); and "node_modules" matches
"node_modules/x/y.js" and "node_modules" itself but not
"my_node_modules/x". -/
theorem c1_matches_patterns_spec :
    (∀ (ps : String) (patterns : List String), '\\' ∉ ps.data →
      (_matches_patterns ps patterns = true ↔ claimMatches ps patterns)) ∧
    _matches_patterns "node_modules/x/y.js" ["node_modules"] = true ∧
    _matches_patterns "node_modules" ["node_modules"] = true ∧
    _matches_patterns "my_node_modules/x" ["node_modules"] = false := by
  refine ⟨?_, by decide, by decide, by decide⟩
  intro ps patterns h
  rw [matches_patterns_any, replaceBS_id ps h, List.any_eq_true]
  unfold claimMatches
  constructor
  · rintro ⟨raw, hmem, hone⟩
    exact ⟨raw, hmem, (matchesOne_iff ps raw).mp hone⟩
  · rintro ⟨raw, hmem, hone⟩
    exact ⟨raw, hmem, (matchesOne_iff ps raw).mpr hone⟩

/-- Witness for C1 at a concrete slash-normalized path and pattern list. -/
theorem c1_matches_patterns_spec_witness :
    '\\' ∉ "a/b/c.png".data ∧
      (_matches_patterns "a/b/c.png" ["*.png"] = true ↔
        claimMatches "a/b/c.png" ["*.png"]) :=
  ⟨by decide, c1_matches_patterns_spec.1 "a/b/c.png" ["*.png"] (by decide)⟩

/-! ## C2: glob examples (the claim errs on "src/*.ts" against
"src/sub/a.ts": `fnmatch`'s star crosses '/') -/

/-- C2 counterexample.  The claim states that the matcher run on pattern
"src/*.ts" does not match "src/sub/a.ts"; the code returns true there,
because the star of a shell glob also consumes '/' characters. -/
theorem c2_counterexample :
    _matches_patterns "src/sub/a.ts" ["src/*.ts"] = true := by decide

/-- C2 amended.  The matcher run on pattern "*.png" matches "a/b/c.png", and
run on "src/*.ts" it matches "src/a.ts" and also matches "src/sub/a.ts"
(star crosses path separators). -/
theorem c2_amended_glob_examples :
    _matches_patterns "a/b/c.png" ["*.png"] = true ∧
    _matches_patterns "src/a.ts" ["src/*.ts"] = true ∧
    _matches_patterns "src/sub/a.ts" ["src/*.ts"] = true := by
  refine ⟨by decide, by decide, by decide⟩

/-! ## C9: shell quoting -/

/-- Any-contains over the metacharacter list is the two-sided existence. -/
theorem shell_specials_bridge (s : String) :
    (SHELL_SPECIALS.any (fun ch => s.data.contains ch) = true) ↔
      ∃ c ∈ s.data, c ∈ SHELL_SPECIALS := by
  simp only [List.any_eq_true, List.contains, List.elem_iff]
  constructor
  · rintro ⟨ch, h1, h2⟩
    exact ⟨ch, h2, h1⟩
  · rintro ⟨c, h1, h2⟩
    exact ⟨c, h2, h1⟩

/-- C9.  A token is wrapped in double quotes with embedded quotes escaped
exactly when it is empty or holds one of the shell metacharacters; any other
token passes through unchanged, and the empty token renders as a pair of
double quotes. -/
theorem c9_shell_quote_spec :
    (∀ s : String,
      ((s = "" ∨ ∃ c ∈ s.data, c ∈ SHELL_SPECIALS) →
        _shell_quote s = "\"" ++ escapeQuotes s ++ "\"") ∧
      ((s ≠ "" ∧ ¬ ∃ c ∈ s.data, c ∈ SHELL_SPECIALS) → _shell_quote s = s)) ∧
    _shell_quote "" = "\"\"" := by
  refine ⟨?_, by decide⟩
  intro s
  unfold _shell_quote
  constructor
  · intro h
    have hc : (decide (s = "") || SHELL_SPECIALS.any fun ch => s.data.contains ch) = true := by
      rw [Bool.or_eq_true]
      rcases h with h | h
      · exact Or.inl (by simp [h])
      · exact Or.inr ((shell_specials_bridge s).mpr h)
    rw [hc]
    simp
  · rintro ⟨h1, h2⟩
    have hb : SHELL_SPECIALS.any (fun ch => s.data.contains ch) = false := by
      cases hany : SHELL_SPECIALS.any (fun ch => s.data.contains ch) with
      | false => rfl
      | true => exact absurd ((shell_specials_bridge s).mp hany) h2
    have hcond : (decide (s = "") || SHELL_SPECIALS.any fun ch => s.data.contains ch) = false := by
      rw [hb, Bool.or_false]
      simp [h1]
    rw [hcond]
    simp

/-- Witness for C9 at a token with a space and at a safe token. -/
theorem c9_shell_quote_spec_witness :
    (("a b" : String) = "" ∨ ∃ c ∈ "a b".data, c ∈ SHELL_SPECIALS) ∧
      _shell_quote "a b" = "\"" ++ escapeQuotes "a b" ++ "\"" :=
  ⟨by decide, (c9_shell_quote_spec.1 "a b").1 (by decide)⟩

/-! ## C10: the binary-extension filter of discovery -/

/-- Membership through sorted insertion. -/
theorem mem_insertSorted (x a : String) : ∀ (l : List String),
    x ∈ insertSorted a l ↔ x = a ∨ x ∈ l := by
  intro l
  induction l with
  | nil => simp [insertSorted]
  | cons y ys ih =>
    by_cases hle : strLeB a.data y.data = true
    · simp [insertSorted, hle]
    · simp only [insertSorted, hle, if_false, Bool.false_eq_true, if_neg,
        List.mem_cons, ih]
      tauto

/-- Sorting keeps exactly the members. -/
theorem mem_sortStrs (x : String) : ∀ (l : List String),
    x ∈ sortStrs l ↔ x ∈ l := by
  intro l
  induction l with
  | nil => simp [sortStrs]
  | cons y ys ih =>
    show x ∈ insertSorted y (sortStrs ys) ↔ _
    rw [mem_insertSorted]
    simp [ih]

/-- The boolean leading-segment test coincides with `List.IsPrefix`. -/
theorem startsWithL_iff : ∀ (a b : List Char),
    startsWithL a b = true ↔ a <+: b := by
  intro a
  induction a with
  | nil => intro b; simp [startsWithL]
  | cons c cs ih =>
    intro b
    cases b with
    | nil => simp [startsWithL]
    | cons d ds =>
      simp only [startsWithL, Bool.and_eq_true, beq_iff_eq, ih ds,
        List.cons_prefix_cons]

/-- The boolean trailing-segment test coincides with `List.IsSuffix`. -/
theorem endsWithL_iff (a b : List Char) :
    endsWithL a b = true ↔ a <:+ b := by
  unfold endsWithL
  rw [startsWithL_iff, List.reverse_prefix]

/-- C10.  Discovery keeps exactly the walked files whose name (last path
component) does not end, case-sensitively, with one of the binary suffixes;
"photo.PNG" survives while "photo.png" is dropped. -/
theorem c10_discover_binary_filter :
    (∀ (walk : List String) (p : String),
      p ∈ discover_files walk ↔
        p ∈ walk ∧ ¬ ∃ e ∈ BINARY_SUFFIXES, e.data <:+ lastComp p.data) ∧
    discover_files ["photo.PNG", "photo.png"] = ["photo.PNG"] := by
  refine ⟨?_, by decide⟩
  intro walk p
  unfold discover_files
  rw [mem_sortStrs, List.mem_filter]
  constructor
  · rintro ⟨hmem, hkeep⟩
    refine ⟨hmem, ?_⟩
    rintro ⟨e, he, hsuf⟩
    have : isBinaryName ⟨lastComp p.data⟩ = true := by
      unfold isBinaryName
      rw [List.any_eq_true]
      exact ⟨e, he, (endsWithL_iff e.data (lastComp p.data)).mpr hsuf⟩
    simp [this] at hkeep
  · rintro ⟨hmem, hno⟩
    refine ⟨hmem, ?_⟩
    have : isBinaryName ⟨lastComp p.data⟩ = false := by
      cases hb : isBinaryName ⟨lastComp p.data⟩ with
      | false => rfl
      | true =>
        unfold isBinaryName at hb
        rw [List.any_eq_true] at hb
        rcases hb with ⟨e, he, hsuf⟩
        exact absurd ⟨e, he, (endsWithL_iff e.data (lastComp p.data)).mp hsuf⟩ hno
    simp [this]

/-! ## C8: pattern normalization -/

/-- C8.  Normalization equals the spec's description (strip, backslash
folding, one leading "./", one trailing '/' unless the result would be
empty); an all-whitespace or empty input normalizes to the empty string; and
an empty-normalizing pattern is skipped by the matcher as no pattern. -/
theorem c8_normalize_glob_spec :
    (∀ pat : String, _normalize_glob pat = normalizeSpecC8 pat) ∧
    (∀ pat : String, pat.data.all isPySpace = true → _normalize_glob pat = "") ∧
    (∀ (ps pat : String) (rest : List String), _normalize_glob pat = "" →
      _matches_patterns ps (pat :: rest) = _matches_patterns ps rest) := by
  refine ⟨?_, ?_, ?_⟩
  · intro pat
    simp only [_normalize_glob, normalizeSpecC8]
    set s0 := removeDotSlash (replaceBS (pyStrip pat)) with hs0
    by_cases hlast : s0.data.getLast? = some '/'
    · by_cases hbig : s0.data.length > 1
      · have ha : decide (s0.length > 1) = true := decide_eq_true hbig
        have hb : (s0.data.getLast? == some '/') = true := by rw [hlast]; rfl
        have hne : s0.data.dropLast ≠ [] := by
          intro hnil
          have hl := List.length_dropLast s0.data
          rw [hnil] at hl
          simp only [List.length_nil] at hl
          omega
        have hc : s0.data.dropLast.isEmpty = false := by
          cases hdl : s0.data.dropLast with
          | nil => exact absurd hdl hne
          | cons a l => rfl
        rw [ha, hb, hc]
        simp
      · have ha : decide (s0.length > 1) = false := decide_eq_false hbig
        have hnil : s0.data.dropLast = [] := by
          have hl := List.length_dropLast s0.data
          rw [← List.length_eq_zero]
          omega
        rw [ha, hnil]
        simp
    · have hb : (s0.data.getLast? == some '/') = false :=
        beq_eq_false_iff_ne.mpr hlast
      rw [hb]
      simp
  · intro pat hall
    have hstrip : pyStrip pat = "" := by
      unfold pyStrip
      have hnil : pat.data.dropWhile isPySpace = [] := by
        rw [List.dropWhile_eq_nil_iff]
        intro x hx
        exact (List.all_eq_true.mp hall) x hx
      rw [hnil]
      rfl
    unfold _normalize_glob
    rw [hstrip]
    decide
  · intro ps pat rest hempty
    unfold _matches_patterns
    simp only [List.any_cons]
    have : matchesOne (replaceBS ps) pat = false := by
      unfold matchesOne
      rw [hempty]
      simp
    rw [this]
    simp

/-- Witness for C8's whitespace and skipping clauses at concrete inputs. -/
theorem c8_normalize_glob_spec_witness :
    ("  ".data.all isPySpace = true ∧ _normalize_glob "  " = "") ∧
      (_normalize_glob " " = "" ∧
        _matches_patterns "a" [" ", "a"] = _matches_patterns "a" ["a"]) :=
  ⟨⟨by decide, c8_normalize_glob_spec.2.1 "  " (by decide)⟩,
    ⟨by decide, c8_normalize_glob_spec.2.2 "a" " " ["a"] (by decide)⟩⟩

/-! ## C3: the visible set -/

/-- C3.  Every recomputation of the visible list keeps exactly the
discovered files that match no ignore pattern, are not exactly excluded, and
(when the normalized filter text is non-empty) contain it case-insensitively;
with no exclusions and an empty filter this is exactly the discovered files
minus the pattern-matched ones. -/
theorem c3_visible_set_spec :
    (∀ (allFiles patterns excluded : List String) (filterText : String),
      _reload_files_list allFiles patterns excluded filterText =
        allFiles.filter (fun p =>
          !_matches_patterns p patterns && !excluded.contains p &&
            (pyLower (pyStrip filterText) = "" ||
              substrL (pyLower (pyStrip filterText)).data (pyLower p).data))) ∧
    (∀ (allFiles patterns : List String),
      _reload_files_list allFiles patterns [] "" =
        allFiles.filter (fun p => !_matches_patterns p patterns)) := by
  constructor
  · intro allFiles patterns excluded filterText
    unfold _reload_files_list
    by_cases hq : pyLower (pyStrip filterText) = ""
    · rw [if_neg (by simp [hq])]
      apply List.filter_congr
      intro p hp
      simp [hq]
    · rw [if_pos (by simp [hq])]
      rw [List.filter_filter]
      apply List.filter_congr
      intro p hp
      cases hm : (!_matches_patterns p patterns && !excluded.contains p)
      · simp [hm]
      · simp only [hm, Bool.true_and, Bool.and_true]
        have : decide (pyLower (pyStrip filterText) = "") = false :=
          decide_eq_false hq
        rw [this]
        simp
  · intro allFiles patterns
    unfold _reload_files_list
    rw [if_neg (by decide)]
    apply List.filter_congr
    intro p hp
    simp [List.contains, List.elem]

/-! ## C4: command synthesis -/

/-- Sorted insertion never produces the empty list. -/
theorem insertSorted_ne_nil (a : String) (l : List String) :
    insertSorted a l ≠ [] := by
  cases l with
  | nil => simp [insertSorted]
  | cons y ys =>
    unfold insertSorted
    by_cases hle : strLeB a.data y.data = true <;> simp [hle]

/-- Sorting gives the empty list only for the empty list. -/
theorem sortStrs_eq_nil_iff (l : List String) : sortStrs l = [] ↔ l = [] := by
  cases l with
  | nil => simp [sortStrs]
  | cons y ys =>
    constructor
    · intro h
      exact absurd h (insertSorted_ne_nil y (sortStrs ys))
    · intro h
      simp at h

/-- Sorting the empty list gives the empty list. -/
theorem sortStrs_nil : sortStrs [] = [] := rfl

/-- C4.  Command synthesis equals the fixed-order spec description, and the
worked example of the spec (default flags, markdown style, default output
name, sole ignore pattern ".git") yields the stated argv. -/
theorem c4_build_command_spec :
    (∀ st : ConfigState, _build_command st = buildCommandSpec st) ∧
    _build_command
        { output_name := "repomix_output.md", style := "markdown", flags := {},
          header_text := "", instruction_path := "",
          ignore_patterns := [".git"], excluded_files := [] } =
      ["repomix", "-o", "repomix_output.md", "--style", "markdown",
       "--remove-empty-lines", "--ignore", ".git"] := by
  refine ⟨?_, by decide⟩
  intro st
  simp only [_build_command, buildCommandSpec]
  by_cases hp : st.ignore_patterns = [] <;> by_cases he : st.excluded_files = [] <;>
    by_cases hsty : st.style = "" <;>
      simp [hp, he, hsty, sortStrs_eq_nil_iff, sortStrs_nil]

/-! ## C7: rescan idempotence -/

/-- Membership survives the default-ignore fold. -/
theorem ensure_mono (fsE : String → Bool) (optout : List String) (x : String) :
    ∀ (l acc : List String), x ∈ acc →
      x ∈ l.foldl (fun acc d =>
        if fsE d && !acc.contains d && !optout.contains d then acc ++ [d] else acc) acc := by
  intro l
  induction l with
  | nil => intro acc h; exact h
  | cons d t ih =>
    intro acc h
    by_cases hc : (fsE d && !acc.contains d && !optout.contains d) = true
    · simp only [List.foldl_cons, if_pos hc]
      exact ih (acc ++ [d]) (List.mem_append_left _ h)
    · simp only [List.foldl_cons, if_neg hc]
      exact ih acc h

/-- After the fold, every existing, not-opted-out default name of the list is
present. -/
theorem ensure_covers (fsE : String → Bool) (optout : List String) (d : String) :
    ∀ (l acc : List String), d ∈ l → fsE d = true → optout.contains d = false →
      d ∈ l.foldl (fun acc d =>
        if fsE d && !acc.contains d && !optout.contains d then acc ++ [d] else acc) acc := by
  intro l
  induction l with
  | nil => intro acc h; simp at h
  | cons d0 t ih =>
    intro acc hmem hfs hopt
    rcases List.mem_cons.mp hmem with heq | ht
    · subst heq
      by_cases hin : acc.contains d = true
      · have hd : d ∈ acc := by
          rw [← List.elem_iff]
          exact hin
        by_cases hc : (fsE d && !acc.contains d && !optout.contains d) = true
        · simp only [List.foldl_cons, if_pos hc]
          exact ensure_mono fsE optout d t (acc ++ [d]) (List.mem_append_left _ hd)
        · simp only [List.foldl_cons, if_neg hc]
          exact ensure_mono fsE optout d t acc hd
      · have hnac : d ∉ acc := by
          intro hmem2
          have h2 : List.elem d acc = true := List.elem_iff.mpr hmem2
          rw [List.contains] at hin
          rw [h2] at hin
          exact hin rfl
        have hnopt : d ∉ optout := by
          intro hmem2
          have h2 : List.elem d optout = true := List.elem_iff.mpr hmem2
          rw [List.contains] at hopt
          rw [h2] at hopt
          exact Bool.noConfusion hopt
        have hc : (fsE d && !acc.contains d && !optout.contains d) = true := by
          simp [hfs]
          exact ⟨hnac, hnopt⟩
        simp only [List.foldl_cons, if_pos hc]
        exact ensure_mono fsE optout d t (acc ++ [d])
          (List.mem_append_right _ (List.mem_singleton.mpr rfl))
    · by_cases hc : (fsE d0 && !acc.contains d0 && !optout.contains d0) = true
      · simp only [List.foldl_cons, if_pos hc]
        exact ih (acc ++ [d0]) ht hfs hopt
      · simp only [List.foldl_cons, if_neg hc]
        exact ih acc ht hfs hopt

/-- The fold is the identity when the accumulator already holds every name
the fold could add. -/
theorem ensure_stable (fsE : String → Bool) (optout : List String) :
    ∀ (l acc : List String),
      (∀ d ∈ l, fsE d = true → optout.contains d = false → acc.contains d = true) →
      l.foldl (fun acc d =>
        if fsE d && !acc.contains d && !optout.contains d then acc ++ [d] else acc) acc = acc := by
  intro l
  induction l with
  | nil => intro acc h; rfl
  | cons d0 t ih =>
    intro acc h
    have hstep : (fsE d0 && !acc.contains d0 && !optout.contains d0) = false := by
      cases hfs : fsE d0 with
      | false => simp [hfs]
      | true =>
        cases hopt : optout.contains d0 with
        | true => simp [hfs, hopt]
        | false =>
          have hct := h d0 (List.mem_cons_self d0 t) hfs hopt
          have hmem0 : d0 ∈ acc := by
            rw [List.contains] at hct
            exact List.elem_iff.mp hct
          simp [hfs, hopt, hmem0]
    simp only [List.foldl_cons, hstep, Bool.false_eq_true, if_false, if_neg]
    exact ih acc (fun d hd => h d (List.mem_cons_of_mem d0 hd))

/-- Running the default auto-add twice is the same as running it once. -/
theorem ensure_idem (fsE : String → Bool) (optout patterns : List String) :
    _ensure_default_ignores_exist fsE optout
        (_ensure_default_ignores_exist fsE optout patterns) =
      _ensure_default_ignores_exist fsE optout patterns := by
  unfold _ensure_default_ignores_exist
  apply ensure_stable
  intro d hd hfs hopt
  rw [List.contains, List.elem_iff]
  exact ensure_covers fsE optout d sortedDefaults patterns hd hfs hopt

/-- The default auto-add never introduces duplicates. -/
theorem ensure_nodup (fsE : String → Bool) (optout : List String) :
    ∀ (l acc : List String), acc.Nodup →
      (l.foldl (fun acc d =>
        if fsE d && !acc.contains d && !optout.contains d then acc ++ [d] else acc) acc).Nodup := by
  intro l
  induction l with
  | nil => intro acc h; exact h
  | cons d0 t ih =>
    intro acc h
    by_cases hc : (fsE d0 && !acc.contains d0 && !optout.contains d0) = true
    · simp only [List.foldl_cons, if_pos hc]
      apply ih
      rw [List.nodup_append]
      refine ⟨h, List.nodup_singleton d0, ?_⟩
      intro x hx hx1
      rw [List.mem_singleton] at hx1
      subst hx1
      have hcf : acc.contains x = false := by
        simp only [Bool.and_eq_true] at hc
        rcases hc with ⟨⟨_, hnc⟩, _⟩
        simpa [Bool.not_eq_true'] using hnc
      have h2 : List.elem x acc = true := List.elem_iff.mpr hx
      rw [List.contains] at hcf
      rw [h2] at hcf
      exact Bool.noConfusion hcf
    · simp only [List.foldl_cons, if_neg hc]
      exact ih acc h

/-- C7.  Rescanning twice in a row from the same state, with an unchanged
file system and no intervening mutation, equals rescanning once (same
visible list and same pattern list, the untouched fields trivially so); and
the default auto-add preserves freedom from duplicates. -/
theorem c7_rescan_idempotent :
    (∀ (fsE : String → Bool) (allFiles : List String) (q : String) (st : ScanState),
      _rescan_and_update fsE allFiles q (_rescan_and_update fsE allFiles q st) =
        _rescan_and_update fsE allFiles q st) ∧
    (∀ (fsE : String → Bool) (optout patterns : List String), patterns.Nodup →
      (_ensure_default_ignores_exist fsE optout patterns).Nodup) := by
  constructor
  · intro fsE allFiles q st
    cases st with
    | mk p e o v =>
      simp only [_rescan_and_update]
      rw [ensure_idem]
  · intro fsE optout patterns h
    unfold _ensure_default_ignores_exist
    exact ensure_nodup fsE optout sortedDefaults patterns h

/-- Witness for C7's duplicate-freedom clause at a concrete state. -/
theorem c7_rescan_idempotent_witness :
    ([".git", "docs"] : List String).Nodup ∧
      (_ensure_default_ignores_exist (fun d => d == ".git") []
        [".git", "docs"]).Nodup :=
  ⟨by decide,
    c7_rescan_idempotent.2 (fun d => d == ".git") [] [".git", "docs"] (by decide)⟩

/-! ## C6: removal of ignore patterns -/

/-- Boolean containment is the decision of membership (lawful equality). -/
theorem contains_eq_decide_mem {α : Type} [BEq α] [LawfulBEq α]
    (l : List α) (a : α) : l.contains a = decide (a ∈ l) := by
  cases hc : l.contains a with
  | true =>
    have hm : a ∈ l := by
      rw [List.contains] at hc
      exact List.elem_iff.mp hc
    simp [hm]
  | false =>
    have hm : a ∉ l := by
      intro hmem
      have h2 : List.elem a l = true := List.elem_iff.mpr hmem
      rw [List.contains] at hc
      rw [h2] at hc
      exact Bool.noConfusion hc
    simp [hm]

/-- Positions below every selected index are never hit. -/
theorem keepNotSel_lt {α : Type} (sel : List Nat) :
    ∀ (l : List α) (k : Nat), (∀ m ∈ sel, m < k) → keepNotSel sel k l = l := by
  intro l
  induction l with
  | nil => intro k h; rfl
  | cons a t ih =>
    intro k h
    have hk : sel.contains k = false := by
      rw [contains_eq_decide_mem]
      have : k ∉ sel := fun hm => absurd (h k hm) (lt_irrefl k)
      simp [this]
    unfold keepNotSel
    rw [hk]
    simp only [Bool.false_eq_true, if_false, if_neg]
    rw [ih (k + 1) (fun m hm => Nat.lt_succ_of_lt (h m hm))]

/-- A selected index below the running offset can be dropped from the
selection. -/
theorem keepNotSel_drop_low {α : Type} (sel : List Nat) (i : Nat) :
    ∀ (l : List α) (k : Nat), i < k →
      keepNotSel (i :: sel) k l = keepNotSel sel k l := by
  intro l
  induction l with
  | nil => intro k h; rfl
  | cons a t ih =>
    intro k h
    have hne : k ≠ i := fun he => absurd (he ▸ h) (lt_irrefl i)
    have hik : ((i :: sel).contains k) = sel.contains k := by
      rw [contains_eq_decide_mem, contains_eq_decide_mem]
      exact decide_eq_decide.mpr (by simp [List.mem_cons, hne])
    unfold keepNotSel
    rw [hik, ih (k + 1) (Nat.lt_succ_of_lt h)]

/-- Erasing the position of a not-yet-selected index from the kept list is
the same as selecting that index as well, provided every other selected
index lies above it. -/
theorem erase_keepNotSel {α : Type} (sel : List Nat) (i : Nat) :
    ∀ (l : List α) (k : Nat), (∀ m ∈ sel, i < m) → k ≤ i → i - k < l.length →
      (keepNotSel sel k l).eraseIdx (i - k) = keepNotSel (i :: sel) k l := by
  intro l
  induction l with
  | nil =>
    intro k hsel hk hlen
    simp at hlen
  | cons a t ih =>
    intro k hsel hk hlen
    have hknot : sel.contains k = false := by
      rw [contains_eq_decide_mem]
      have : k ∉ sel := fun hm => absurd (hsel k hm) (Nat.not_lt.mpr hk)
      simp [this]
    by_cases hki : k = i
    · subst hki
      have hhead : ((k :: sel).contains k) = true := by
        rw [contains_eq_decide_mem]
        simp
      have hzero : k - k = 0 := Nat.sub_self k
      unfold keepNotSel
      rw [hknot, hhead]
      simp only [Bool.false_eq_true, if_false, if_neg, if_pos]
      rw [hzero, List.eraseIdx_cons_zero]
      rw [keepNotSel_drop_low sel k t (k + 1) (Nat.lt_succ_self k)]
    · have hklt : k < i := Nat.lt_of_le_of_ne hk hki
      have hheadk : ((i :: sel).contains k) = false := by
        rw [contains_eq_decide_mem]
        have h1 : k ∉ sel := fun hm => absurd (hsel k hm) (Nat.not_lt.mpr hk)
        have h2 : k ≠ i := hki
        simp [List.mem_cons, h1, h2]
      obtain ⟨j, hj⟩ : ∃ j, i - k = j + 1 := ⟨i - k - 1, by omega⟩
      have hj' : j = i - (k + 1) := by omega
      unfold keepNotSel
      rw [hknot, hheadk]
      simp only [Bool.false_eq_true, if_false, if_neg]
      rw [hj, List.eraseIdx_cons_succ, hj',
        ih (k + 1) hsel (by omega) (by simp at hlen ⊢; omega)]

/-- In a strictly ascending list the head is below every later element. -/
theorem strictAscB_head_lt : ∀ (rest : List Nat) (i : Nat),
    strictAscB (i :: rest) = true → ∀ m ∈ rest, i < m := by
  intro rest
  induction rest with
  | nil => intro i _ m hm; simp at hm
  | cons b r ihr =>
    intro i hasc m hm
    unfold strictAscB at hasc
    have h1 := (Bool.and_eq_true .. ▸ hasc).1
    have h2 := (Bool.and_eq_true .. ▸ hasc).2
    have hib : i < b := by simpa using h1
    rcases List.mem_cons.mp hm with he | hr
    · exact he ▸ hib
    · exact Nat.lt_trans hib (ihr b h2 m hr)

/-- The reversed-order pop loop of `on_remove_ignore` removes exactly the
entries at the (ascending, in-range) selected positions. -/
theorem eraseIdx_foldr {α : Type} :
    ∀ (sel : List Nat) (l : List α), strictAscB sel = true →
      (∀ m ∈ sel, m < l.length) →
      sel.foldr (fun i acc => acc.eraseIdx i) l = keepNotSel sel 0 l := by
  intro sel
  induction sel with
  | nil =>
    intro l hasc hlt
    rw [keepNotSel_lt [] l 0 (by simp)]
    rfl
  | cons i rest ih =>
    intro l hasc hlt
    have hascr : strictAscB rest = true := by
      cases rest with
      | nil => rfl
      | cons b r =>
        unfold strictAscB at hasc
        exact (Bool.and_eq_true .. ▸ hasc).2
    have hheadlt : ∀ m ∈ rest, i < m := strictAscB_head_lt rest i hasc
    rw [List.foldr_cons, ih l hascr (fun m hm => hlt m (List.mem_cons_of_mem i hm))]
    have := erase_keepNotSel rest i l 0 hheadlt (Nat.zero_le i)
      (by simpa using hlt i (List.mem_cons_self i rest))
    simpa using this

/-- Membership after a set-style insertion. -/
theorem mem_insertS (l : List String) (a x : String) :
    x ∈ insertS l a ↔ x ∈ l ∨ x = a := by
  unfold insertS
  by_cases h : l.contains a = true
  · rw [if_pos h]
    constructor
    · exact Or.inl
    · rintro (hx | hx)
      · exact hx
      · subst hx
        rw [contains_eq_decide_mem] at h
        simpa using h
  · rw [if_neg h]
    simp

/-- Membership after recording the removed default names in the opt-out
set. -/
theorem mem_optout_fold : ∀ (removed acc : List String) (x : String),
    x ∈ removed.foldl
        (fun l rp => if IGNORED_DIRS_DEFAULT.contains rp then insertS l rp else l) acc ↔
      x ∈ acc ∨ (x ∈ removed ∧ x ∈ IGNORED_DIRS_DEFAULT) := by
  intro removed
  induction removed with
  | nil => intro acc x; simp
  | cons rp rest ih =>
    intro acc x
    cases hd : IGNORED_DIRS_DEFAULT.contains rp with
    | true =>
      have hdm : rp ∈ IGNORED_DIRS_DEFAULT := by
        rw [contains_eq_decide_mem] at hd
        simpa using hd
      simp only [List.foldl_cons, hd, if_pos]
      rw [ih (insertS acc rp) x, mem_insertS]
      constructor
      · rintro ((hx | hx) | hx)
        · exact Or.inl hx
        · exact Or.inr ⟨by simp [hx], hx ▸ hdm⟩
        · exact Or.inr ⟨List.mem_cons_of_mem rp hx.1, hx.2⟩
      · rintro (hx | ⟨hx1, hx2⟩)
        · exact Or.inl (Or.inl hx)
        · rcases List.mem_cons.mp hx1 with he | hr
          · exact Or.inl (Or.inr he)
          · exact Or.inr ⟨hr, hx2⟩
    | false =>
      have hdm : rp ∉ IGNORED_DIRS_DEFAULT := by
        intro hmem
        rw [contains_eq_decide_mem] at hd
        simp [hmem] at hd
      simp only [List.foldl_cons, hd, Bool.false_eq_true, if_false, if_neg]
      rw [ih acc x]
      constructor
      · rintro (hx | ⟨hx1, hx2⟩)
        · exact Or.inl hx
        · exact Or.inr ⟨List.mem_cons_of_mem rp hx1, hx2⟩
      · rintro (hx | ⟨hx1, hx2⟩)
        · exact Or.inl hx
        · rcases List.mem_cons.mp hx1 with he | hr
          · exact absurd (he ▸ hx2) hdm
          · exact Or.inr ⟨hr, hx2⟩

/-- Membership after discarding each listed file from the exclusion set. -/
theorem mem_discard_fold : ∀ (rem acc : List String) (x : String),
    x ∈ rem.foldl (fun l p => l.filter (fun q => q != p)) acc ↔
      x ∈ acc ∧ x ∉ rem := by
  intro rem
  induction rem with
  | nil => intro acc x; simp
  | cons p rest ih =>
    intro acc x
    simp only [List.foldl_cons]
    rw [ih (acc.filter (fun q => q != p)) x, List.mem_filter]
    simp only [bne_iff_ne, ne_eq, decide_not, Bool.not_eq_true', decide_eq_false_iff_not]
    constructor
    · rintro ⟨⟨h1, h2⟩, h3⟩
      exact ⟨h1, by simp [List.mem_cons, h2, h3]⟩
    · rintro ⟨h1, h2⟩
      simp only [List.mem_cons, not_or] at h2
      exact ⟨⟨h1, h2.1⟩, h2.2⟩

/-- C6.  For an ascending in-range selection, removing ignore patterns
removes exactly the selected entries, adds exactly the removed default names
to the opt-out set, and removes from the exclusion set exactly the files
that match some removed pattern but no remaining one. -/
theorem c6_remove_ignore_spec :
    ∀ (st : IgnoreState) (sel : List Nat),
      strictAscB sel = true → (∀ i ∈ sel, i < st.patterns.length) →
      (on_remove_ignore st sel).patterns = keepNotSel sel 0 st.patterns ∧
      (∀ x, x ∈ (on_remove_ignore st sel).optout ↔
        x ∈ st.optout ∨
          (x ∈ sel.map (fun i => st.patterns.getD i "") ∧
            x ∈ IGNORED_DIRS_DEFAULT)) ∧
      (∀ f, f ∈ (on_remove_ignore st sel).excluded ↔
        f ∈ st.excluded ∧
          ¬(matches_any f (sel.map (fun i => st.patterns.getD i "")) = true ∧
            matches_any f (keepNotSel sel 0 st.patterns) = false)) := by
  intro st sel hasc hlt
  obtain ⟨pats, excl, opt⟩ := st
  simp only at hlt
  have hpat : (sel.reverse).foldl (fun l i => l.eraseIdx i) pats =
      keepNotSel sel 0 pats := by
    rw [List.foldl_reverse]
    exact eraseIdx_foldr sel pats hasc hlt
  refine ⟨?_, ?_, ?_⟩
  · simp only [on_remove_ignore]
    exact hpat
  · intro x
    simp only [on_remove_ignore]
    rw [mem_optout_fold]
  · intro f
    simp only [on_remove_ignore]
    rw [hpat, mem_discard_fold]
    constructor
    · rintro ⟨h1, h2⟩
      refine ⟨h1, ?_⟩
      rintro ⟨hm1, hm2⟩
      exact h2 (List.mem_filter.mpr ⟨h1, by rw [hm1, hm2]; rfl⟩)
    · rintro ⟨h1, h2⟩
      refine ⟨h1, ?_⟩
      intro hmem
      rcases List.mem_filter.mp hmem with ⟨_, hcond⟩
      simp only [Bool.and_eq_true, Bool.not_eq_true'] at hcond
      exact h2 ⟨hcond.1, hcond.2⟩

/-- Witness for C6 at a concrete state and selection. -/
theorem c6_remove_ignore_spec_witness :
    (strictAscB [0] = true ∧
      (∀ i ∈ ([0] : List Nat), i <
        (IgnoreState.mk ["node_modules", "*.md"]
          ["node_modules/a.js", "docs/x.md", "keep.txt"] []).patterns.length)) ∧
    ((on_remove_ignore
        (IgnoreState.mk ["node_modules", "*.md"]
          ["node_modules/a.js", "docs/x.md", "keep.txt"] []) [0]).patterns =
      keepNotSel [0] 0 ["node_modules", "*.md"] ∧
    (∀ x, x ∈ (on_remove_ignore
        (IgnoreState.mk ["node_modules", "*.md"]
          ["node_modules/a.js", "docs/x.md", "keep.txt"] []) [0]).optout ↔
      x ∈ ([] : List String) ∨
        (x ∈ ([0] : List Nat).map
            (fun i => (["node_modules", "*.md"] : List String).getD i "") ∧
          x ∈ IGNORED_DIRS_DEFAULT)) ∧
    (∀ f, f ∈ (on_remove_ignore
        (IgnoreState.mk ["node_modules", "*.md"]
          ["node_modules/a.js", "docs/x.md", "keep.txt"] []) [0]).excluded ↔
      f ∈ (["node_modules/a.js", "docs/x.md", "keep.txt"] : List String) ∧
        ¬(matches_any f (([0] : List Nat).map
            (fun i => (["node_modules", "*.md"] : List String).getD i "")) = true ∧
          matches_any f (keepNotSel [0] 0 ["node_modules", "*.md"]) = false))) :=
  ⟨⟨by decide, by decide⟩,
    c6_remove_ignore_spec
      (IgnoreState.mk ["node_modules", "*.md"]
        ["node_modules/a.js", "docs/x.md", "keep.txt"] []) [0]
      (by decide) (by decide)⟩

/-! ## C5: persistence round-trip -/

/-- A style string that is exactly one of the choices finds itself (the
choices differ pairwise even case-insensitively). -/
theorem findStringCI_self (s : String) (h : s ∈ styleChoices) :
    findStringCI styleChoices s = some s := by
  simp only [styleChoices, List.mem_cons, List.mem_singleton,
    List.not_mem_nil, or_false] at h
  rcases h with rfl | rfl | rfl <;> decide

/-- C5 counterexample.  Four concrete saved states each fail the round trip
as claimed, one per restriction the amendment needs: an empty saved output
name falls back to the current widget value; a saved style outside the
choice list leaves the current selection; a saved directory that no longer
exists is not restored; a saved directory that does exist is restored, but
the trailing refresh empties the saved exclusion set. -/
theorem c5_counterexample :
    _restore_state (fun _ => false) (fun _ => false)
        (_persist_state { freshState with output_name := "" }) freshState ≠
      { freshState with output_name := "" } ∧
    _restore_state (fun _ => false) (fun _ => false)
        (_persist_state { freshState with style := "fancy" }) freshState ≠
      { freshState with style := "fancy" } ∧
    _restore_state (fun _ => false) (fun _ => false)
        (_persist_state { freshState with last_dir := "gone" }) freshState ≠
      { freshState with last_dir := "gone" } ∧
    _restore_state (fun _ => true) (fun _ => false)
        (_persist_state (AppState.mk "d" "repomix_output.md" "markdown" "" "" {}
          [] [] ["a.txt"])) freshState ≠
      AppState.mk "d" "repomix_output.md" "markdown" "" "" {} [] [] ["a.txt"] := by
  refine ⟨by decide, by decide, by decide, by decide⟩

/-- C5 amended.  Loading the result of saving restores every field (the two
set-valued fields as sets) provided the saved output name is non-empty, the
saved style is exactly one of the choice strings, and the saved directory
field is empty — the counterexample shows each proviso necessary; and a
fully absent serialized form falls back to the fresh defaults, in particular
the remove-empty-lines flag comes back true. -/
theorem c5_state_roundtrip_amended :
    (∀ (fsIsDir fsE : String → Bool) (st : AppState),
      st.output_name ≠ "" → st.style ∈ styleChoices → st.last_dir = "" →
      ((_restore_state fsIsDir fsE (_persist_state st) freshState).last_dir =
          st.last_dir ∧
        (_restore_state fsIsDir fsE (_persist_state st) freshState).output_name =
          st.output_name ∧
        (_restore_state fsIsDir fsE (_persist_state st) freshState).style =
          st.style ∧
        (_restore_state fsIsDir fsE (_persist_state st) freshState).header_text =
          st.header_text ∧
        (_restore_state fsIsDir fsE (_persist_state st)
            freshState).instruction_file_path = st.instruction_file_path ∧
        (_restore_state fsIsDir fsE (_persist_state st) freshState).flags =
          st.flags ∧
        (_restore_state fsIsDir fsE (_persist_state st) freshState).ignore_patterns =
          st.ignore_patterns ∧
        (∀ x, x ∈ (_restore_state fsIsDir fsE (_persist_state st)
            freshState).ignore_defaults_optout ↔ x ∈ st.ignore_defaults_optout) ∧
        (∀ x, x ∈ (_restore_state fsIsDir fsE (_persist_state st)
            freshState).excluded_files ↔ x ∈ st.excluded_files))) ∧
    (∀ (fsIsDir fsE : String → Bool),
      _restore_state fsIsDir fsE {} freshState = freshState ∧
      (_restore_state fsIsDir fsE {} freshState).flags.remove_empty = true) := by
  constructor
  · rintro fsIsDir fsE ⟨ld, on0, sty, ht, ip, fl, pats, oo, ex⟩ hout hsty hlast
    simp only at hout hsty hlast
    subst hlast
    have hstyne : sty ≠ "" := by
      rintro rfl
      simp [styleChoices] at hsty
    have hfind : findStringCI styleChoices sty = some sty :=
      findStringCI_self sty hsty
    by_cases hip : ip = "" <;>
      simp [_persist_state, _restore_state, freshState, hout, hstyne, hfind,
        mem_sortStrs, hip]
  · intro fsIsDir fsE
    exact ⟨rfl, rfl⟩

/-- Witness for C5's amended round trip at a concrete state. -/
theorem c5_state_roundtrip_amended_witness :
    (AppState.mk "" "o.md" "plain" "" "" {} [] [] ["b.txt", "a.txt"]).output_name ≠ "" ∧
    (AppState.mk "" "o.md" "plain" "" "" {} [] [] ["b.txt", "a.txt"]).style ∈ styleChoices ∧
    (∀ x, x ∈ (_restore_state (fun _ => false) (fun _ => false)
        (_persist_state (AppState.mk "" "o.md" "plain" "" "" {} [] []
          ["b.txt", "a.txt"])) freshState).excluded_files ↔
      x ∈ (AppState.mk "" "o.md" "plain" "" "" {} [] []
        ["b.txt", "a.txt"]).excluded_files) :=
  ⟨by decide, by decide,
    (c5_state_roundtrip_amended.1 (fun _ => false) (fun _ => false)
      (AppState.mk "" "o.md" "plain" "" "" {} [] [] ["b.txt", "a.txt"])
      (by decide) (by decide) rfl).2.2.2.2.2.2.2.2⟩
